import Mathlib

/-!
Verification development for the `pfun` effect system
(`pfun/effect.pyx`, Cython source).

The effect runtime is embedded shallowly: each Cython node class
(`CSuccess`, `Error`, `AndThen`, `Call`, `CDepends`, `Recover`, `Either`,
`Memoize`, `Sequence`, `SequenceAsync`, `ResourceGet`, `Catch`, `Map`,
`WithRepr`) becomes a constructor of an inductive `Eff`, host-language
closures become Lean functions threading an explicit user world `σ`,
and the trampolined `do` loop (`CEffect.do`) becomes a fuel-indexed
big-step evaluator `doE` over an explicit `Store` that also carries the
per-node mutable state of the runtime (`Memoize.result` caches,
`Resource.resource` caches, the run's `AsyncExitStack`) plus ghost
instrumentation counters (factory invocations, teardowns, handles
returned by `Resource.get`).
-/

namespace Pfun

/-- Model of Python runtime values as used by the effect module: `None`,
integers, strings, tuples, `pfun.either.Right`/`Left` wrappers, and
exception objects.  An exception object carries the list of class names
in its MRO (so `isinstance(e, C)` is membership) plus its `args` payload. -/
inductive Val : Type where
  | vnone : Val
  | vint : Int → Val
  | vstr : String → Val
  | vtup : List Val → Val
  | vright : Val → Val
  | vleft : Val → Val
  | vexc : List String → List Val → Val
  deriving Repr

/-- `isinstance(v, cls)` for a class name `cls`: true exactly when `v` is an
exception object whose MRO contains `cls`.  (Only exception classes are
needed by the embedded code paths.) -/
def isInstanceOf (v : Val) (cls : String) : Bool :=
  match v with
  | .vexc tys _ => tys.contains cls
  | _ => false

/-- The `RuntimeError(reason)` instance built by `CEffect.__call__` when the
failure reason is not an `Exception` instance. -/
def runtimeError (reason : Val) : Val :=
  .vexc ["RuntimeError", "Exception", "BaseException"] [reason]

/-- An `AttributeError` instance (raised e.g. when `.get` is accessed on a
non-`Either` object). -/
def attrError : Val :=
  .vexc ["AttributeError", "Exception", "BaseException"] []

/-- The `ValueError` raised by the decoration-time checks of
`from_io_bound_callable`, `from_cpu_bound_callable`, `catch_io_bound` and
`catch_cpu_bound` when handed a coroutine function. -/
def valueError : Val :=
  .vexc ["ValueError", "Exception", "BaseException"] []

/-- Terminal state of the trampoline loop `CEffect.do`: a `CSuccess` node or
an `Error` node. -/
inductive Outcome : Type where
  | tsucc : Val → Outcome
  | terr : Val → Outcome
  deriving Repr

/-- Result of calling a host function wrapped by a `Catch` node: a normal
return value or a raised exception object. -/
inductive FnOut : Type where
  | ret : Val → FnOut
  | exn : Val → FnOut

/-- The effect node tree of `pfun/effect.pyx`, parametrised by the type `σ`
of the user-visible world that host closures may read and update.
`memoize` and `resourceGet` name their mutable cell by a numeric id
(modelling object identity of the `Memoize` node / `Resource` value). -/
inductive Eff (σ : Type) : Type where
  | success : Val → Eff σ
  | err : Val → Eff σ
  | depends : Eff σ
  | call : (σ → Eff σ × σ) → Eff σ
  | andThen : Eff σ → (Val → σ → Eff σ × σ) → Eff σ
  | mapE : Eff σ → (Val → σ → Val × σ) → Eff σ
  | recover : Eff σ → (Val → σ → Eff σ × σ) → Eff σ
  | eitherE : Eff σ → Eff σ
  | memoize : Nat → Eff σ → Eff σ
  | seqE : List (Eff σ) → Eff σ
  | seqAsyncE : List (Eff σ) → Eff σ
  | resourceGet : Nat → Eff σ
  | catchE : List String → (σ → FnOut × σ) → Eff σ
  | withRepr : Eff σ → Eff σ

/-- Interpreter store: the user world `σ`, the `Memoize.result` caches, the
`Resource.resource` caches, the run's `AsyncExitStack` contents
(`entered`, resource ids in entry order), and ghost instrumentation:
`getLog` records every handle returned by a `Resource.get` effect,
`facCnt` counts `resource_factory` invocations, `tdCnt` counts teardown
(`__aexit__` on the wrapped context manager) invocations. -/
structure Store (σ : Type) : Type where
  w : σ
  memo : Nat → Option Outcome
  resCache : Nat → Option Val
  entered : List Nat
  getLog : List (Nat × Val)
  facCnt : Nat → Nat
  tdCnt : Nat → Nat

/-- Result of the `do` loop: a terminal `Outcome`, or an uncaught host
exception escaping the loop (e.g. re-raised by `Catch.resume`). -/
inductive DRes (σ : Type) : Type where
  | res : Outcome → Store σ → DRes σ
  | exc : Val → Store σ → DRes σ

/-- The store component of a `DRes`. -/
def DRes.store : DRes σ → Store σ
  | .res _ s => s
  | .exc _ s => s

/-- Pointwise update of a function out of `Nat`. -/
def updFn (g : Nat → α) (i : Nat) (a : α) : Nat → α :=
  fun j => if j = i then a else g j

/-- Write a `Memoize` cache cell (`self.result = ...` in `Memoize.resume`). -/
def setMemo (s : Store σ) (mid : Nat) (t : Outcome) : Store σ :=
  { s with memo := updFn s.memo mid (some t) }

/-- Record the handle returned by a successful `Resource.get` evaluation
(ghost instrumentation). -/
def logGet (s : Store σ) (rid : Nat) (h : Val) : Store σ :=
  { s with getLog := s.getLog ++ [(rid, h)] }

/-- Cache-miss bookkeeping of `ResourceGet.resume`: store the factory's
result in `Resource.resource`, count the factory invocation, and
register the resource on the run's exit stack. -/
def resFill (s : Store σ) (rid : Nat) (ev : Val) (w2 : σ) : Store σ :=
  { s with w := w2
         , resCache := updFn s.resCache rid (some ev)
         , facCnt := updFn s.facCnt rid (s.facCnt rid + 1)
         , entered := s.entered ++ [rid] }

/-- One step of `ResourceGet.resume`: on a cache miss run the resource
factory, fill `Resource.resource`, register the resource on the run's
exit stack; then translate the cached `Either` into success (`Right`)
or failure (`Left`). -/
def resGetStep (facs : Nat → σ → Val × σ) (rid : Nat) (s : Store σ) :
    Option (DRes σ) :=
  match s.resCache rid with
  | some ev =>
    match ev with
    | .vright h => some (.res (.tsucc h) (logGet s rid h))
    | .vleft x => some (.res (.terr x) s)
    | _ => some (.exc attrError s)
  | none =>
    let p := facs rid s.w
    let s1 : Store σ := resFill s rid p.1 p.2
    match p.1 with
    | .vright h => some (.res (.tsucc h) (logGet s1 rid h))
    | .vleft x => some (.res (.terr x) s1)
    | _ => some (.exc attrError s1)

/-- One step of `Catch.resume`: call the wrapped function; a raised object
is converted to an `Error` node only when it is an `Exception` instance
(the `except Exception` clause) matching one of the listed types;
otherwise it is re-raised and escapes the loop. -/
def catchStep (listed : List String) (f : σ → FnOut × σ) (s : Store σ) :
    Option (DRes σ) :=
  let p := f s.w
  let s1 : Store σ := { s with w := p.2 }
  match p.1 with
  | .ret v => some (.res (.tsucc v) s1)
  | .exn e =>
    if isInstanceOf e "Exception" then
      if listed.any (fun t => isInstanceOf e t) then some (.res (.terr e) s1)
      else some (.exc e s1)
    else some (.exc e s1)

/-- The loop of `Sequence.resume`: run each effect in order with `step`,
collect success results, return the first `Error` terminal without
touching the remaining effects. -/
def seqGo (step : Eff σ → Store σ → Option (DRes σ)) :
    List (Eff σ) → List Val → Store σ → Option (DRes σ)
  | [], acc, s => some (.res (.tsucc (.vtup acc.reverse)) s)
  | e :: rest, acc, s =>
    match step e s with
    | some (.res (.tsucc v) s1) => seqGo step rest (v :: acc) s1
    | some (.res (.terr x) s1) => some (.res (.terr x) s1)
    | some (.exc ex s1) => some (.exc ex s1)
    | none => none

/-- Collect gathered terminal outcomes the way `sequence` over terminal
nodes does: first `Error` wins, otherwise a tuple of the results. -/
def collectOuts : List Outcome → List Val → Outcome
  | [], acc => .tsucc (.vtup acc.reverse)
  | .tsucc v :: rest, acc => collectOuts rest (v :: acc)
  | .terr x :: _, _ => .terr x

/-- The gather of `SequenceAsync.sequence`: every effect is driven to a
terminal (all are started, none is skipped on failure), then the
terminals are collected with the `sequence` logic.  An exception raised
by any `do` propagates out of the gather. -/
def gatherGo (step : Eff σ → Store σ → Option (DRes σ)) :
    List (Eff σ) → List Outcome → Store σ → Option (DRes σ)
  | [], acc, s => some (.res (collectOuts acc.reverse []) s)
  | e :: rest, acc, s =>
    match step e s with
    | some (.res t s1) => gatherGo step rest (t :: acc) s1
    | some (.exc ex s1) => some (.exc ex s1)
    | none => none

/-- Resumption of an `AndThen` node given the inner result: feed a success
into the continuation and keep driving, propagate a failure or an
uncaught exception unchanged. -/
def contSucc (step : Eff σ → Store σ → Option (DRes σ))
    (k : Val → σ → Eff σ × σ) : Option (DRes σ) → Option (DRes σ)
  | some (.res (.tsucc v) s1) =>
    let p := k v s1.w
    step p.1 { s1 with w := p.2 }
  | some (.res (.terr x) s1) => some (.res (.terr x) s1)
  | some (.exc ex s1) => some (.exc ex s1)
  | none => none

/-- Resumption of a `Recover` node given the inner result: feed a failure
reason into the handler and keep driving, pass a success through. -/
def contErr (step : Eff σ → Store σ → Option (DRes σ))
    (h : Val → σ → Eff σ × σ) : Option (DRes σ) → Option (DRes σ)
  | some (.res (.tsucc v) s1) => some (.res (.tsucc v) s1)
  | some (.res (.terr x) s1) =>
    let p := h x s1.w
    step p.1 { s1 with w := p.2 }
  | some (.exc ex s1) => some (.exc ex s1)
  | none => none

/-- Resumption of a `Map` node given the inner result. -/
def mapRes (f : Val → σ → Val × σ) : Option (DRes σ) → Option (DRes σ)
  | some (.res (.tsucc v) s1) =>
    let p := f v s1.w
    some (.res (.tsucc p.1) { s1 with w := p.2 })
  | some (.res (.terr x) s1) => some (.res (.terr x) s1)
  | some (.exc ex s1) => some (.exc ex s1)
  | none => none

/-- Resumption of an `Either` node given the inner result: wrap success in
`Right`, failure in `Left`; an uncaught exception still escapes. -/
def eitherRes : Option (DRes σ) → Option (DRes σ)
  | some (.res (.tsucc v) s1) => some (.res (.tsucc (.vright v)) s1)
  | some (.res (.terr x) s1) => some (.res (.tsucc (.vleft x)) s1)
  | some (.exc ex s1) => some (.exc ex s1)
  | none => none

/-- Cache fill of a `Memoize` node (`self.result = await self.effect.do(env)`)
given the result of the first inner evaluation. -/
def memoRes (mid : Nat) : Option (DRes σ) → Option (DRes σ)
  | some (.res t s1) => some (.res t (setMemo s1 mid t))
  | some (.exc ex s1) => some (.exc ex s1)
  | none => none

/-- Fuel-indexed big-step form of the trampoline loop `CEffect.do`: drive an
effect node to a terminal `CSuccess`/`Error` node, threading the store.
`facs` gives the behaviour of each `Resource` value's `resource_factory`,
`r` is the dependency wrapped in the `RuntimeEnv`.  `none` means the fuel
was exhausted before a terminal was reached. -/
def doE (facs : Nat → σ → Val × σ) (r : Val) :
    Nat → Eff σ → Store σ → Option (DRes σ)
  | 0 => fun _ _ => none
  | n + 1 => fun e s =>
    match e with
    | .success v => some (.res (.tsucc v) s)
    | .err x => some (.res (.terr x) s)
    | .depends => some (.res (.tsucc r) s)
    | .withRepr e1 => doE facs r n e1 s
    | .call t =>
      let p := t s.w
      doE facs r n p.1 { s with w := p.2 }
    | .andThen e1 k => contSucc (doE facs r n) k (doE facs r n e1 s)
    | .mapE e1 f => mapRes f (doE facs r n e1 s)
    | .recover e1 h => contErr (doE facs r n) h (doE facs r n e1 s)
    | .eitherE e1 => eitherRes (doE facs r n e1 s)
    | .memoize mid e1 =>
      match s.memo mid with
      | some t => some (.res t s)
      | none => memoRes mid (doE facs r n e1 s)
    | .seqE es => seqGo (doE facs r n) es [] s
    | .seqAsyncE es => gatherGo (doE facs r n) es [] s
    | .resourceGet rid => resGetStep facs rid s
    | .catchE listed f => catchStep listed f s

/-- Result of `CEffect.__call__` / `run`: a normal return, or a raised
exception object. -/
inductive RunRes : Type where
  | ok : Val → RunRes
  | raised : Val → RunRes
  deriving Repr

/-- A fresh `AsyncExitStack` for the run (nothing entered yet). -/
def clearEntered (s : Store σ) : Store σ :=
  { s with entered := [] }

/-- `Resource.__aexit__`: clear the `Resource.resource` cache and, when it
held a `Right`, tear the wrapped context manager down (counted). -/
def releaseOne (s : Store σ) (rid : Nat) : Store σ :=
  match s.resCache rid with
  | some (.vright _) =>
    { s with resCache := updFn s.resCache rid none
           , tdCnt := updFn s.tdCnt rid (s.tdCnt rid + 1) }
  | some _ => { s with resCache := updFn s.resCache rid none }
  | none => s

/-- Unwind the run's `AsyncExitStack`: release every entered resource in
reverse entry order. -/
def teardown (s : Store σ) : Store σ :=
  { s.entered.reverse.foldl releaseOne s with entered := [] }

/-- How `CEffect.__call__` surfaces an `Error` reason: re-raise it when it
is an `Exception` instance, otherwise raise `RuntimeError(reason)`. -/
def wrapReason (x : Val) : Val :=
  if isInstanceOf x "Exception" then x else runtimeError x

/-- Translate the terminal node of the `do` loop into the result of
`__call__`. -/
def toRun : Outcome → RunRes
  | .tsucc v => .ok v
  | .terr x => .raised (wrapReason x)

/-- `CEffect.__call__` (and hence `run`): open a fresh exit-stack scope,
drive the effect to a terminal, unwind the scope on every exit path,
return the success result or raise the (possibly wrapped) failure
reason; an uncaught host exception also propagates after unwinding. -/
def runEff (facs : Nat → σ → Val × σ) (r : Val) (fuel : Nat) (e : Eff σ)
    (s : Store σ) : Option (RunRes × Store σ) :=
  match doE facs r fuel e (clearEntered s) with
  | none => none
  | some (.res t s1) => some (toRun t, teardown s1)
  | some (.exc ex s1) => some (.raised ex, teardown s1)

/-- `success(result)`. -/
def success (v : Val) : Eff σ := .success v

/-- `error(reason)`. -/
def error (x : Val) : Eff σ := .err x

/-- `depend()`. -/
def depend : Eff σ := .depends

/-- `CEffect.with_repr` — attaches a repr string, behaviour unchanged. -/
def with_repr (e : Eff σ) : Eff σ := .withRepr e

/-- `CEffect.discard_and_then(effect)`: `and_then` with a continuation that
ignores its argument and produces `effect`, wrapped by `with_repr`. -/
def discard_and_then (e other : Eff σ) : Eff σ :=
  with_repr (.andThen e (fun _ w => (other, w)))

/-- `CEffect.either()`. -/
def either (e : Eff σ) : Eff σ := .eitherE e

/-- `CEffect.ensure(effect)`: `self.and_then(lambda value:
effect.discard_and_then(success(value))).recover(lambda reason:
effect.discard_and_then(error(reason))).with_repr(...)`. -/
def ensure (e fin : Eff σ) : Eff σ :=
  with_repr
    (.recover
      (.andThen e (fun v w => (discard_and_then fin (success v), w)))
      (fun x w => (discard_and_then fin (error x), w)))

/-- `sequence(effects)` (the `Sequence` node over the tuple of effects). -/
def sequence (es : List (Eff σ)) : Eff σ := .seqE es

/-- `sequence_async(effects)` (the `SequenceAsync` node). -/
def sequence_async (es : List (Eff σ)) : Eff σ := .seqAsyncE es

/-- Modelled from the spec: truthiness of `pfun.either` values (the
`either` module itself is not among the given sources) — `Right` is the
success variant and truthy, `Left` is the failure variant and falsy. -/
def eitherTruthy : Val → Bool
  | .vright _ => true
  | _ => false

/-- Modelled from the spec: the `get` payload accessor of `pfun.either`
values (`Right(x).get == x`, `Left(x).get == x`). -/
def eitherGet : Val → Val
  | .vright x => x
  | .vleft x => x
  | v => v

/-- `absolve(effect)`: `effect.and_then(f).with_repr(...)` where
`f(either)` is `CSuccess(either.get)` if `either` is truthy else
`Error(either.get)`. -/
def absolve (e : Eff σ) : Eff σ :=
  with_repr (.andThen e (fun v w =>
    (if eitherTruthy v then Eff.success (eitherGet v) else Eff.err (eitherGet v), w)))

/-- A `Resource` value, identified by its object identity. -/
structure Resource : Type where
  id : Nat

/-- `Resource.get()`: the `ResourceGet` effect for this resource. -/
def Resource.get (res : Resource) : Eff σ := .resourceGet res.id

/-- The effect built by `catch(*exception_types)(f)(*args, **kwargs)` — a
`Catch` node holding the listed exception class names and the bound
call.  `CatchIOBound` and `CatchCPUBound` share this `resume` logic and
differ only in which executor calls `f`. -/
def catchEffect (listed : List String) (f : σ → FnOut × σ) : Eff σ :=
  .catchE listed f

/-- A host function as seen by the decoration-time checks: all they inspect
is `asyncio.iscoroutinefunction(f)`. -/
structure PyFunc : Type where
  isCoroutineFn : Bool
  deriving Repr, DecidableEq

/-- What a decoration-time call constructed (before any effect is run). -/
inductive Decorated : Type where
  | fromIOBound : PyFunc → Decorated
  | fromCPUBound : PyFunc → Decorated
  | catchIODecorator : PyFunc → Decorated
  | catchCPUDecorator : PyFunc → Decorated
  deriving Repr, DecidableEq

/-- `from_io_bound_callable(f)`: raises `ValueError` when `f` is a
coroutine function, otherwise builds the `FromIOBoundCallable` effect. -/
def from_io_bound_callable (f : PyFunc) : Except Val Decorated :=
  if f.isCoroutineFn then .error valueError else .ok (.fromIOBound f)

/-- `from_cpu_bound_callable(f)`: raises `ValueError` when `f` is a
coroutine function, otherwise builds the `FromCPUBoundCallable` effect. -/
def from_cpu_bound_callable (f : PyFunc) : Except Val Decorated :=
  if f.isCoroutineFn then .error valueError else .ok (.fromCPUBound f)

/-- `catch_io_bound(*types)` applied to `f` (`decorator1`): raises
`ValueError` at decoration time when `f` is a coroutine function. -/
def catch_io_bound (f : PyFunc) : Except Val Decorated :=
  if f.isCoroutineFn then .error valueError else .ok (.catchIODecorator f)

/-- `catch_cpu_bound(*types)` applied to `f` (`decorator1`): raises
`ValueError` at decoration time when `f` is a coroutine function. -/
def catch_cpu_bound (f : PyFunc) : Except Val Decorated :=
  if f.isCoroutineFn then .error valueError else .ok (.catchCPUDecorator f)

/-- `io_bound` of `pfun/effect.pyx` (line 826): `return f` — the function
is returned unchanged, nothing is checked and nothing is raised. -/
def io_bound (f : PyFunc) : Except Val PyFunc := .ok f

/-- `cpu_bound` of `pfun/effect.pyx` (line 829): `return f` — the function
is returned unchanged, nothing is checked and nothing is raised. -/
def cpu_bound (f : PyFunc) : Except Val PyFunc := .ok f

/-- The store at the start of a fresh interpreter session. -/
def initStore (w : σ) : Store σ :=
  { w := w, memo := fun _ => none, resCache := fun _ => none
  , entered := [], getLog := [], facCnt := fun _ => 0, tdCnt := fun _ => 0 }

/-- A factory environment for scenarios that use no resources. -/
def facsId : Nat → σ → Val × σ := fun _ w => (Val.vnone, w)

/-- An effect with an observable side effect: append the tag `i` to the
world, then succeed with `v` (a `Call` node whose thunk performs the
side effect, as service-module effects do). -/
def loggedS (p : Nat × Val) : Eff (List Nat) :=
  .call (fun w => (.success p.2, w ++ [p.1]))

/-- An effect with an observable side effect that then fails: append the
tag `j` to the world, then fail with `x`. -/
def loggedE (j : Nat) (x : Val) : Eff (List Nat) :=
  .call (fun w => (.err x, w ++ [j]))

/-- A pure effect "built only from `success` or `error`": `inl v` is
`success v`, `inr x` is `error x`. -/
def mkPure : Val ⊕ Val → Eff σ
  | .inl v => .success v
  | .inr x => .err x

/-- The terminal node a pure effect reduces to. -/
def outcomeOf : Val ⊕ Val → Outcome
  | .inl v => .tsucc v
  | .inr x => .terr x

/-- The outcome the `sequence` logic assigns to a list of pure effects:
the leftmost failure reason, or the tuple of all results. -/
def pureOutcome : List (Val ⊕ Val) → List Val → Outcome
  | [], acc => .tsucc (.vtup acc.reverse)
  | .inl v :: rest, acc => pureOutcome rest (v :: acc)
  | .inr x :: _, _ => .terr x

/-- Number of factory invocations a store transition performs for resource
`rid`: one exactly when the transition fills an empty `Resource.resource`
cache. -/
def resDelta (rid : Nat) (s s' : Store σ) : Nat :=
  if (s.resCache rid).isNone ∧ (s'.resCache rid).isSome then 1 else 0

/-- Invariant relating the stores before and after any number of
interpreter steps, for a fixed resource `rid`: the cache is write-once
within a run, the factory-invocation count and the number of exit-stack
registrations both grow by exactly the cache-fill indicator, no teardown
happens inside the loop, and every handle logged by a `get` during the
steps is the cached handle. -/
def ResStep (rid : Nat) (s s' : Store σ) : Prop :=
  (∀ v, s.resCache rid = some v → s'.resCache rid = some v) ∧
  s'.facCnt rid = s.facCnt rid + resDelta rid s s' ∧
  s'.entered.count rid = s.entered.count rid + resDelta rid s s' ∧
  s'.tdCnt rid = s.tdCnt rid ∧
  ∃ new, s'.getLog = s.getLog ++ new ∧
    ∀ q ∈ new, q.1 = rid → s'.resCache rid = some (.vright q.2)

/-- Whether a cache cell holds a `Right` (a successfully acquired handle). -/
def isSomeRight : Option Val → Bool
  | some (.vright _) => true
  | _ => false

/-- The `Either` value `Either(effect)` wraps a terminal outcome in:
`Right` for success, `Left` for failure. -/
def eitherOut : Outcome → Val
  | .tsucc v => .vright v
  | .terr x => .vleft x

/-- A `KeyboardInterrupt` instance: a `BaseException` that is not an
`Exception`. -/
def kbInterrupt : Val := .vexc ["KeyboardInterrupt", "BaseException"] []

/-- A counting stub resource factory: returns `Right(7)` as the handle and
bumps the world counter. -/
def facsW : Nat → Nat → Val × Nat := fun _ w => (.vright (.vint 7), w + 1)

/-- Fetch the same `Resource` value twice within one run and pair the two
handles. -/
def eW : Eff Nat :=
  .andThen (Resource.get ⟨0⟩) (fun h1 w =>
    (.mapE (Resource.get ⟨0⟩) (fun h2 w2 => (.vtup [h1, h2], w2)), w))

/-- The result of running the double-get scenario. -/
def wOut : RunRes × Store Nat :=
  (runEff facsW .vnone 10 eW (initStore 0)).getD (.ok .vnone, initStore 0)

section UnfoldLemmas

variable (facs : Nat → σ → Val × σ) (r : Val) (n : Nat) (s : Store σ)

theorem doE_zero (e : Eff σ) : doE facs r 0 e s = none := rfl

theorem doE_success (v : Val) :
    doE facs r (n + 1) (.success v) s = some (.res (.tsucc v) s) := rfl

theorem doE_err (x : Val) :
    doE facs r (n + 1) (.err x) s = some (.res (.terr x) s) := rfl

theorem doE_depends :
    doE facs r (n + 1) (.depends) s = some (.res (.tsucc r) s) := rfl

theorem doE_withRepr (e1 : Eff σ) :
    doE facs r (n + 1) (.withRepr e1) s = doE facs r n e1 s := rfl

theorem doE_call (t : σ → Eff σ × σ) :
    doE facs r (n + 1) (.call t) s
      = doE facs r n (t s.w).1 { s with w := (t s.w).2 } := rfl

theorem doE_andThen (e1 : Eff σ) (k : Val → σ → Eff σ × σ) :
    doE facs r (n + 1) (.andThen e1 k) s
      = contSucc (doE facs r n) k (doE facs r n e1 s) := rfl

theorem doE_mapE (e1 : Eff σ) (f : Val → σ → Val × σ) :
    doE facs r (n + 1) (.mapE e1 f) s = mapRes f (doE facs r n e1 s) := rfl

theorem doE_recover (e1 : Eff σ) (h : Val → σ → Eff σ × σ) :
    doE facs r (n + 1) (.recover e1 h) s
      = contErr (doE facs r n) h (doE facs r n e1 s) := rfl

theorem doE_eitherE (e1 : Eff σ) :
    doE facs r (n + 1) (.eitherE e1) s = eitherRes (doE facs r n e1 s) := rfl

theorem doE_memoize (mid : Nat) (e1 : Eff σ) :
    doE facs r (n + 1) (.memoize mid e1) s
      = match s.memo mid with
        | some t => some (.res t s)
        | none => memoRes mid (doE facs r n e1 s) := rfl

theorem doE_seqE (es : List (Eff σ)) :
    doE facs r (n + 1) (.seqE es) s = seqGo (doE facs r n) es [] s := rfl

theorem doE_seqAsyncE (es : List (Eff σ)) :
    doE facs r (n + 1) (.seqAsyncE es) s = gatherGo (doE facs r n) es [] s := rfl

theorem doE_resourceGet (rid : Nat) :
    doE facs r (n + 1) (.resourceGet rid) s = resGetStep facs rid s := rfl

theorem doE_catchE (listed : List String) (f : σ → FnOut × σ) :
    doE facs r (n + 1) (.catchE listed f) s = catchStep listed f s := rfl

end UnfoldLemmas

theorem seqGo_mono {step step' : Eff σ → Store σ → Option (DRes σ)}
    (hs : ∀ e s d, step e s = some d → step' e s = some d) :
    ∀ (es : List (Eff σ)) (acc : List Val) (s : Store σ) (d : DRes σ),
      seqGo step es acc s = some d → seqGo step' es acc s = some d := by
  intro es
  induction es with
  | nil => intro acc s d h; exact h
  | cons e rest ih =>
    intro acc s d h
    simp only [seqGo] at h ⊢
    cases h1 : step e s with
    | none => rw [h1] at h; cases h
    | some d1 =>
      rw [h1] at h
      rw [hs e s d1 h1]
      cases d1 with
      | res t s1 =>
        cases t with
        | tsucc v => exact ih _ _ _ h
        | terr x => exact h
      | exc ex s1 => exact h

theorem gatherGo_mono {step step' : Eff σ → Store σ → Option (DRes σ)}
    (hs : ∀ e s d, step e s = some d → step' e s = some d) :
    ∀ (es : List (Eff σ)) (acc : List Outcome) (s : Store σ) (d : DRes σ),
      gatherGo step es acc s = some d → gatherGo step' es acc s = some d := by
  intro es
  induction es with
  | nil => intro acc s d h; exact h
  | cons e rest ih =>
    intro acc s d h
    simp only [gatherGo] at h ⊢
    cases h1 : step e s with
    | none => rw [h1] at h; cases h
    | some d1 =>
      rw [h1] at h
      rw [hs e s d1 h1]
      cases d1 with
      | res t s1 => exact ih _ _ _ h
      | exc ex s1 => exact h

theorem contSucc_mono {step step' : Eff σ → Store σ → Option (DRes σ)}
    (hs : ∀ e s d, step e s = some d → step' e s = some d)
    (k : Val → σ → Eff σ × σ) (o : Option (DRes σ)) (d : DRes σ)
    (h : contSucc step k o = some d) : contSucc step' k o = some d := by
  match o with
  | some (.res (.tsucc v) s1) => exact hs _ _ _ h
  | some (.res (.terr x) s1) => exact h
  | some (.exc ex s1) => exact h
  | none => exact h

theorem contErr_mono {step step' : Eff σ → Store σ → Option (DRes σ)}
    (hs : ∀ e s d, step e s = some d → step' e s = some d)
    (hh : Val → σ → Eff σ × σ) (o : Option (DRes σ)) (d : DRes σ)
    (h : contErr step hh o = some d) : contErr step' hh o = some d := by
  match o with
  | some (.res (.tsucc v) s1) => exact h
  | some (.res (.terr x) s1) => exact hs _ _ _ h
  | some (.exc ex s1) => exact h
  | none => exact h

theorem doE_succ_mono (facs : Nat → σ → Val × σ) (r : Val) :
    ∀ (n : Nat) (e : Eff σ) (s : Store σ) (d : DRes σ),
      doE facs r n e s = some d → doE facs r (n + 1) e s = some d := by
  intro n
  induction n with
  | zero => intro e s d h; cases h
  | succ n ih =>
    intro e s d h
    cases e with
    | success v => exact h
    | err x => exact h
    | depends => exact h
    | withRepr e1 => exact ih _ _ _ h
    | call t => exact ih _ _ _ h
    | resourceGet rid => exact h
    | catchE listed f => exact h
    | andThen e1 k =>
      rw [doE_andThen] at h ⊢
      cases h1 : doE facs r n e1 s with
      | none => rw [h1] at h; cases h
      | some d1 =>
        rw [h1] at h
        rw [ih _ _ _ h1]
        exact contSucc_mono (fun e s d => ih e s d) k (some d1) d h
    | mapE e1 f =>
      rw [doE_mapE] at h ⊢
      cases h1 : doE facs r n e1 s with
      | none => rw [h1] at h; cases h
      | some d1 =>
        rw [h1] at h
        rw [ih _ _ _ h1]
        exact h
    | recover e1 hh =>
      rw [doE_recover] at h ⊢
      cases h1 : doE facs r n e1 s with
      | none => rw [h1] at h; cases h
      | some d1 =>
        rw [h1] at h
        rw [ih _ _ _ h1]
        exact contErr_mono (fun e s d => ih e s d) hh (some d1) d h
    | eitherE e1 =>
      rw [doE_eitherE] at h ⊢
      cases h1 : doE facs r n e1 s with
      | none => rw [h1] at h; cases h
      | some d1 =>
        rw [h1] at h
        rw [ih _ _ _ h1]
        exact h
    | memoize mid e1 =>
      rw [doE_memoize] at h ⊢
      cases h2 : s.memo mid with
      | some t => rw [h2] at h; exact h
      | none =>
        rw [h2] at h
        simp only at h ⊢
        cases h1 : doE facs r n e1 s with
        | none => rw [h1] at h; cases h
        | some d1 =>
          rw [h1] at h
          rw [ih _ _ _ h1]
          exact h
    | seqE es =>
      rw [doE_seqE] at h ⊢
      exact seqGo_mono (fun e s d => ih e s d) es [] s d h
    | seqAsyncE es =>
      rw [doE_seqAsyncE] at h ⊢
      exact gatherGo_mono (fun e s d => ih e s d) es [] s d h

theorem doE_mono (facs : Nat → σ → Val × σ) (r : Val) {n m : Nat}
    (hnm : n ≤ m) (e : Eff σ) (s : Store σ) (d : DRes σ)
    (h : doE facs r n e s = some d) : doE facs r m e s = some d := by
  induction m with
  | zero =>
    cases Nat.le_zero.mp hnm
    exact h
  | succ m ih =>
    rcases Nat.lt_or_ge n (m + 1) with h1 | h1
    · exact doE_succ_mono facs r m e s d (ih (Nat.lt_succ_iff.mp h1))
    · cases Nat.le_antisymm hnm h1
      exact h

theorem resDelta_of_cache_eq (rid : Nat) (s s' : Store σ)
    (h : s'.resCache rid = s.resCache rid) : resDelta rid s s' = 0 := by
  unfold resDelta
  rw [h]
  rcases hc : s.resCache rid with _ | v <;> simp [hc]

theorem resStep_refl (rid : Nat) (s : Store σ) : ResStep rid s s := by
  have h0 : resDelta rid s s = 0 := resDelta_of_cache_eq rid s s rfl
  exact ⟨fun v hv => hv, by omega, by omega, rfl, ⟨[], by simp, by simp⟩⟩

theorem resStep_of_eq (rid : Nat) (s s' : Store σ)
    (h1 : s'.resCache rid = s.resCache rid)
    (h2 : s'.facCnt rid = s.facCnt rid)
    (h3 : s'.entered.count rid = s.entered.count rid)
    (h4 : s'.tdCnt rid = s.tdCnt rid)
    (h5 : s'.getLog = s.getLog) : ResStep rid s s' := by
  have h0 : resDelta rid s s' = 0 := resDelta_of_cache_eq rid s s' h1
  refine ⟨fun v hv => by rw [h1]; exact hv, by omega, by omega, h4,
    ⟨[], by simp [h5], by simp⟩⟩

theorem resStep_setW (rid : Nat) (s : Store σ) (w2 : σ) :
    ResStep rid s { s with w := w2 } :=
  resStep_of_eq rid _ _ rfl rfl rfl rfl rfl

theorem resStep_setMemo (rid : Nat) (s : Store σ) (mid : Nat) (t : Outcome) :
    ResStep rid s (setMemo s mid t) :=
  resStep_of_eq rid _ _ rfl rfl rfl rfl rfl

theorem resStep_trans (rid : Nat) {s1 s2 s3 : Store σ}
    (a : ResStep rid s1 s2) (b : ResStep rid s2 s3) : ResStep rid s1 s3 := by
  obtain ⟨m12, f12, c12, t12, n12, l12, p12⟩ := a
  obtain ⟨m23, f23, c23, t23, n23, l23, p23⟩ := b
  have hd : resDelta rid s1 s3 = resDelta rid s1 s2 + resDelta rid s2 s3 := by
    unfold resDelta
    rcases h1 : s1.resCache rid with _ | v1
    · rcases h2 : s2.resCache rid with _ | v2
      · rcases h3 : s3.resCache rid with _ | v3 <;> simp [h1, h2, h3]
      · have h3' := m23 v2 h2
        simp [h1, h2, h3']
    · have h2' := m12 v1 h1
      have h3' := m23 v1 h2'
      simp [h1, h2', h3']
  refine ⟨fun v hv => m23 v (m12 v hv), by omega, by omega, by omega,
    ⟨n12 ++ n23, by rw [l23, l12, List.append_assoc], ?_⟩⟩
  intro q hq hq1
  rcases List.mem_append.mp hq with hq' | hq'
  · exact m23 _ (p12 q hq' hq1)
  · exact p23 q hq' hq1

theorem resStep_logGet (rid rid' : Nat) (s : Store σ) (hv : Val)
    (hc : s.resCache rid' = some (.vright hv)) :
    ResStep rid s (logGet s rid' hv) := by
  have h0 : resDelta rid s (logGet s rid' hv) = 0 :=
    resDelta_of_cache_eq rid _ _ rfl
  refine ⟨fun v hv2 => hv2, by rw [h0]; rfl, by rw [h0]; rfl, rfl,
    ⟨[(rid', hv)], rfl, ?_⟩⟩
  intro q hq hq1
  have hq2 : q = (rid', hv) := List.mem_singleton.mp hq
  subst hq2
  show s.resCache rid = some (.vright hv)
  rw [← hq1]
  exact hc

theorem resStep_resFill (rid rid' : Nat) (s : Store σ) (ev : Val) (w2 : σ)
    (hc : s.resCache rid' = none) : ResStep rid s (resFill s rid' ev w2) := by
  by_cases hr : rid' = rid
  · subst hr
    have hc' : (resFill s rid' ev w2).resCache rid' = some ev := by
      simp [resFill, updFn]
    have hd : resDelta rid' s (resFill s rid' ev w2) = 1 := by
      unfold resDelta
      rw [hc, hc']
      simp
    refine ⟨?_, ?_, ?_, rfl, ⟨[], by simp [resFill], by simp⟩⟩
    · intro v hv
      rw [hc] at hv
      cases hv
    · rw [hd]
      simp [resFill, updFn]
    · rw [hd]
      simp [resFill, List.count_append]
  · have hr' : ¬(rid = rid') := fun h => hr h.symm
    apply resStep_of_eq
    · simp [resFill, updFn, hr']
    · simp [resFill, updFn, hr']
    · simp [resFill, List.count_append, List.count_cons, hr']
    · rfl
    · rfl

theorem seqGo_resStep (rid : Nat)
    (step : Eff σ → Store σ → Option (DRes σ))
    (hstep : ∀ e s d, step e s = some d → ResStep rid s d.store) :
    ∀ (es : List (Eff σ)) (acc : List Val) (s : Store σ) (d : DRes σ),
      seqGo step es acc s = some d → ResStep rid s d.store := by
  intro es
  induction es with
  | nil =>
    intro acc s d h
    cases Option.some.inj h
    exact resStep_refl rid s
  | cons e rest ih =>
    intro acc s d h
    simp only [seqGo] at h
    cases h1 : step e s with
    | none => rw [h1] at h; cases h
    | some d1 =>
      rw [h1] at h
      have ha := hstep e s d1 h1
      cases d1 with
      | res t s1 =>
        cases t with
        | tsucc v => exact resStep_trans rid ha (ih _ _ _ h)
        | terr x => cases Option.some.inj h; exact ha
      | exc ex s1 => cases Option.some.inj h; exact ha

theorem gatherGo_resStep (rid : Nat)
    (step : Eff σ → Store σ → Option (DRes σ))
    (hstep : ∀ e s d, step e s = some d → ResStep rid s d.store) :
    ∀ (es : List (Eff σ)) (acc : List Outcome) (s : Store σ) (d : DRes σ),
      gatherGo step es acc s = some d → ResStep rid s d.store := by
  intro es
  induction es with
  | nil =>
    intro acc s d h
    cases Option.some.inj h
    exact resStep_refl rid s
  | cons e rest ih =>
    intro acc s d h
    simp only [gatherGo] at h
    cases h1 : step e s with
    | none => rw [h1] at h; cases h
    | some d1 =>
      rw [h1] at h
      have ha := hstep e s d1 h1
      cases d1 with
      | res t s1 => exact resStep_trans rid ha (ih _ _ _ h)
      | exc ex s1 => cases Option.some.inj h; exact ha

theorem doE_resStep (facs : Nat → σ → Val × σ) (r : Val) (rid : Nat) :
    ∀ (n : Nat) (e : Eff σ) (s : Store σ) (d : DRes σ),
      doE facs r n e s = some d → ResStep rid s d.store := by
  intro n
  induction n with
  | zero => intro e s d h; cases h
  | succ n ih =>
    intro e s d h
    cases e with
    | success v => cases Option.some.inj h; exact resStep_refl rid s
    | err x => cases Option.some.inj h; exact resStep_refl rid s
    | depends => cases Option.some.inj h; exact resStep_refl rid s
    | withRepr e1 => exact ih _ _ _ h
    | call t =>
      exact resStep_trans rid (resStep_setW rid s _) (ih _ _ _ h)
    | andThen e1 k =>
      rw [doE_andThen] at h
      cases h1 : doE facs r n e1 s with
      | none => rw [h1] at h; cases h
      | some d1 =>
        rw [h1] at h
        have ha := ih _ _ _ h1
        cases d1 with
        | res t s1 =>
          cases t with
          | tsucc v =>
            exact resStep_trans rid ha
              (resStep_trans rid (resStep_setW rid s1 _) (ih _ _ _ h))
          | terr x => cases Option.some.inj h; exact ha
        | exc ex s1 => cases Option.some.inj h; exact ha
    | mapE e1 f =>
      rw [doE_mapE] at h
      cases h1 : doE facs r n e1 s with
      | none => rw [h1] at h; cases h
      | some d1 =>
        rw [h1] at h
        have ha := ih _ _ _ h1
        cases d1 with
        | res t s1 =>
          cases t with
          | tsucc v =>
            cases Option.some.inj h
            exact resStep_trans rid ha (resStep_setW rid s1 _)
          | terr x => cases Option.some.inj h; exact ha
        | exc ex s1 => cases Option.some.inj h; exact ha
    | recover e1 h2 =>
      rw [doE_recover] at h
      cases h1 : doE facs r n e1 s with
      | none => rw [h1] at h; cases h
      | some d1 =>
        rw [h1] at h
        have ha := ih _ _ _ h1
        cases d1 with
        | res t s1 =>
          cases t with
          | tsucc v => cases Option.some.inj h; exact ha
          | terr x =>
            exact resStep_trans rid ha
              (resStep_trans rid (resStep_setW rid s1 _) (ih _ _ _ h))
        | exc ex s1 => cases Option.some.inj h; exact ha
    | eitherE e1 =>
      rw [doE_eitherE] at h
      cases h1 : doE facs r n e1 s with
      | none => rw [h1] at h; cases h
      | some d1 =>
        rw [h1] at h
        have ha := ih _ _ _ h1
        cases d1 with
        | res t s1 =>
          cases t with
          | tsucc v => cases Option.some.inj h; exact ha
          | terr x => cases Option.some.inj h; exact ha
        | exc ex s1 => cases Option.some.inj h; exact ha
    | memoize mid e1 =>
      rw [doE_memoize] at h
      cases h2 : s.memo mid with
      | some t =>
        rw [h2] at h
        cases Option.some.inj h
        exact resStep_refl rid s
      | none =>
        rw [h2] at h
        simp only at h
        cases h1 : doE facs r n e1 s with
        | none => rw [h1] at h; simp [memoRes] at h
        | some d1 =>
          rw [h1] at h
          have ha := ih _ _ _ h1
          cases d1 with
          | res t s1 =>
            cases Option.some.inj h
            exact resStep_trans rid ha (resStep_setMemo rid s1 mid t)
          | exc ex s1 => cases Option.some.inj h; exact ha
    | seqE es =>
      rw [doE_seqE] at h
      exact seqGo_resStep rid _ (fun e s d => ih e s d) es [] s d h
    | seqAsyncE es =>
      rw [doE_seqAsyncE] at h
      exact gatherGo_resStep rid _ (fun e s d => ih e s d) es [] s d h
    | catchE listed f =>
      rw [doE_catchE] at h
      simp only [catchStep] at h
      cases hq : (f s.w).1 with
      | ret v =>
        rw [hq] at h
        cases Option.some.inj h
        exact resStep_setW rid s _
      | exn ex =>
        rw [hq] at h
        simp only at h
        split_ifs at h <;> (cases Option.some.inj h; exact resStep_setW rid s _)
    | resourceGet rid' =>
      rw [doE_resourceGet] at h
      unfold resGetStep at h
      cases hc : s.resCache rid' with
      | some ev =>
        rw [hc] at h
        cases ev with
        | vright hv =>
          cases Option.some.inj h
          exact resStep_logGet rid rid' s hv hc
        | vleft x => cases Option.some.inj h; exact resStep_refl rid s
        | vnone => cases Option.some.inj h; exact resStep_refl rid s
        | vint i => cases Option.some.inj h; exact resStep_refl rid s
        | vstr st => cases Option.some.inj h; exact resStep_refl rid s
        | vtup l => cases Option.some.inj h; exact resStep_refl rid s
        | vexc t p => cases Option.some.inj h; exact resStep_refl rid s
      | none =>
        rw [hc] at h
        simp only at h
        have hfill : ∀ ev : Val,
            ResStep rid s (resFill s rid' ev (facs rid' s.w).2) :=
          fun ev => resStep_resFill rid rid' s ev _ hc
        cases hq : (facs rid' s.w).1 with
        | vright hv =>
          rw [hq] at h
          cases Option.some.inj h
          have h2 : (resFill s rid' (.vright hv) (facs rid' s.w).2).resCache rid'
              = some (.vright hv) := by simp [resFill, updFn]
          exact resStep_trans rid (hfill (.vright hv))
            (resStep_logGet rid rid' _ hv h2)
        | vleft x => rw [hq] at h; cases Option.some.inj h; exact hfill _
        | vnone => rw [hq] at h; cases Option.some.inj h; exact hfill _
        | vint i => rw [hq] at h; cases Option.some.inj h; exact hfill _
        | vstr st => rw [hq] at h; cases Option.some.inj h; exact hfill _
        | vtup l => rw [hq] at h; cases Option.some.inj h; exact hfill _
        | vexc t p => rw [hq] at h; cases Option.some.inj h; exact hfill _

theorem releaseOne_memo (s : Store σ) (a : Nat) :
    (releaseOne s a).memo = s.memo := by
  unfold releaseOne
  split <;> rfl

theorem foldl_releaseOne_memo :
    ∀ (l : List Nat) (s : Store σ), (l.foldl releaseOne s).memo = s.memo := by
  intro l
  induction l with
  | nil => intro s; rfl
  | cons a l ih =>
    intro s
    rw [List.foldl_cons, ih, releaseOne_memo]

theorem teardown_memo (s : Store σ) : (teardown s).memo = s.memo := by
  unfold teardown
  rw [foldl_releaseOne_memo]

theorem releaseOne_facCnt (s : Store σ) (a : Nat) :
    (releaseOne s a).facCnt = s.facCnt := by
  unfold releaseOne
  split <;> rfl

theorem releaseOne_getLog (s : Store σ) (a : Nat) :
    (releaseOne s a).getLog = s.getLog := by
  unfold releaseOne
  split <;> rfl

theorem releaseOne_tdCnt_ne (rid : Nat) (s : Store σ) (a : Nat) (ha : a ≠ rid) :
    (releaseOne s a).tdCnt rid = s.tdCnt rid := by
  have ha' : ¬(rid = a) := fun hh => ha hh.symm
  unfold releaseOne
  split
  · simp [updFn, ha']
  · rfl
  · rfl

theorem releaseOne_resCache_ne (rid : Nat) (s : Store σ) (a : Nat)
    (ha : a ≠ rid) : (releaseOne s a).resCache rid = s.resCache rid := by
  have ha' : ¬(rid = a) := fun hh => ha hh.symm
  unfold releaseOne
  split
  · simp [updFn, ha']
  · simp [updFn, ha']
  · rfl

theorem foldl_releaseOne_facCnt :
    ∀ (l : List Nat) (s : Store σ), (l.foldl releaseOne s).facCnt = s.facCnt := by
  intro l
  induction l with
  | nil => intro s; rfl
  | cons a l ih =>
    intro s
    rw [List.foldl_cons, ih, releaseOne_facCnt]

theorem foldl_releaseOne_getLog :
    ∀ (l : List Nat) (s : Store σ), (l.foldl releaseOne s).getLog = s.getLog := by
  intro l
  induction l with
  | nil => intro s; rfl
  | cons a l ih =>
    intro s
    rw [List.foldl_cons, ih, releaseOne_getLog]

theorem foldl_releaseOne_tdCnt_notmem (rid : Nat) :
    ∀ (l : List Nat) (s : Store σ), rid ∉ l →
      (l.foldl releaseOne s).tdCnt rid = s.tdCnt rid := by
  intro l
  induction l with
  | nil => intro s _; rfl
  | cons a l ih =>
    intro s hmem
    rw [List.foldl_cons]
    have ha : a ≠ rid := fun hh => hmem (hh ▸ List.mem_cons_self a l)
    have hl : rid ∉ l := fun hh => hmem (List.mem_cons_of_mem a hh)
    rw [ih _ hl, releaseOne_tdCnt_ne rid s a ha]

theorem foldl_releaseOne_tdCnt (rid : Nat) :
    ∀ (l : List Nat) (s : Store σ), l.count rid ≤ 1 →
      (l.foldl releaseOne s).tdCnt rid
        = s.tdCnt rid
          + (if rid ∈ l ∧ isSomeRight (s.resCache rid) then 1 else 0) := by
  intro l
  induction l with
  | nil => intro s _; simp
  | cons a l ih =>
    intro s h
    by_cases ha : rid = a
    · subst ha
      have hcnt : l.count rid = 0 := by
        rw [List.count_cons_self] at h
        omega
      have hnot : rid ∉ l := by
        intro hmem
        have := List.count_pos_iff.mpr hmem
        omega
      rw [List.foldl_cons, foldl_releaseOne_tdCnt_notmem rid l _ hnot]
      unfold releaseOne
      rcases hcc : s.resCache rid with _ | v
      · simp [hcc, isSomeRight]
      · cases v with
        | vright hv => simp [hcc, updFn, isSomeRight]
        | vleft x => simp [hcc, isSomeRight]
        | vnone => simp [hcc, isSomeRight]
        | vint i => simp [hcc, isSomeRight]
        | vstr st => simp [hcc, isSomeRight]
        | vtup lv => simp [hcc, isSomeRight]
        | vexc t p => simp [hcc, isSomeRight]
    · have ha2 : a ≠ rid := fun hh => ha hh.symm
      have hcnt' : l.count rid ≤ 1 := by
        rw [List.count_cons_of_ne ha] at h
        exact h
      rw [List.foldl_cons, ih (releaseOne s a) hcnt',
          releaseOne_tdCnt_ne rid s a ha2, releaseOne_resCache_ne rid s a ha2]
      congr 1
      simp [List.mem_cons, ha]

theorem teardown_facCnt (s : Store σ) : (teardown s).facCnt = s.facCnt := by
  unfold teardown
  rw [foldl_releaseOne_facCnt]

theorem teardown_getLog (s : Store σ) : (teardown s).getLog = s.getLog := by
  unfold teardown
  rw [foldl_releaseOne_getLog]

theorem teardown_tdCnt (rid : Nat) (s : Store σ)
    (hcnt : s.entered.count rid ≤ 1) :
    (teardown s).tdCnt rid
      = s.tdCnt rid
        + (if rid ∈ s.entered ∧ isSomeRight (s.resCache rid) then 1 else 0) := by
  unfold teardown
  show (s.entered.reverse.foldl releaseOne s).tdCnt rid = _
  rw [foldl_releaseOne_tdCnt rid _ s (by rw [List.count_reverse]; exact hcnt)]
  congr 1
  simp [List.mem_reverse]

/-- C1: if the interpretation of an effect terminates in an `Error` node
with reason `x`, then `run`/`__call__` raises: the raised object is `x`
itself when `x` is an `Exception` instance and a `RuntimeError` wrapping
`x` as its payload otherwise, and the run never returns normally. -/
theorem run_raises_error_reason (facs : Nat → σ → Val × σ) (r : Val)
    (fuel : Nat) (e : Eff σ) (s : Store σ) (x : Val) (s1 : Store σ)
    (h : doE facs r fuel e (clearEntered s) = some (.res (.terr x) s1)) :
    runEff facs r fuel e s = some (.raised (wrapReason x), teardown s1)
    ∧ (isInstanceOf x "Exception" = true → wrapReason x = x)
    ∧ (isInstanceOf x "Exception" = false → wrapReason x = runtimeError x)
    ∧ ∀ (v : Val) (s2 : Store σ), runEff facs r fuel e s ≠ some (.ok v, s2) := by
  have h1 : runEff facs r fuel e s = some (.raised (wrapReason x), teardown s1) := by
    unfold runEff
    rw [h]
    rfl
  refine ⟨h1, ?_, ?_, ?_⟩
  · intro hx; unfold wrapReason; rw [hx]; rfl
  · intro hx; unfold wrapReason; rw [hx]; rfl
  · intro v s2 hc
    rw [h1] at hc
    simp at hc

/-- Witness for C1: `error("boom")` with a non-exception reason raises
`RuntimeError("boom")`. -/
theorem run_raises_error_reason_witness :
    doE (σ := Unit) facsId .vnone 1 (error (.vstr "boom"))
        (clearEntered (initStore ()))
      = some (.res (.terr (.vstr "boom")) (initStore ()))
    ∧ runEff (σ := Unit) facsId .vnone 1 (error (.vstr "boom")) (initStore ())
      = some (.raised (runtimeError (.vstr "boom")), teardown (initStore ())) :=
  ⟨rfl,
   (run_raises_error_reason facsId .vnone 1 (error (.vstr "boom"))
      (initStore ()) (.vstr "boom") (initStore ()) rfl).1⟩

/-- C2: `success(x).run(r)` returns exactly `x`, leaves the store intact,
and the result does not depend on the dependency `r` in any way. -/
theorem success_run_independent_of_dependency (facs : Nat → σ → Val × σ)
    (r1 r2 x : Val) (n : Nat) (s : Store σ) :
    runEff facs r1 (n + 1) (success x) s = some (.ok x, clearEntered s)
    ∧ ∀ fuel : Nat,
        runEff facs r1 fuel (success x) s = runEff facs r2 fuel (success x) s := by
  constructor
  · rfl
  · intro fuel
    cases fuel with
    | zero => rfl
    | succ n => rfl

/-- C5: `e.either()` never fails — it succeeds with `Right(v)` when `e`
succeeds with `v` and with `Left(x)` when `e` fails with `x` — and
`absolve` is its dual: `absolve(e.either())` is outcome-equivalent to
`e` itself, for every effect and every dependency. -/
theorem either_absolve_roundtrip (facs : Nat → σ → Val × σ) (r : Val)
    (n : Nat) (e : Eff σ) (s : Store σ) (t : Outcome) (s1 : Store σ)
    (h : doE facs r n e (clearEntered s) = some (.res t s1)) :
    doE facs r (n + 1) (either e) (clearEntered s)
      = some (.res (.tsucc (eitherOut t)) s1)
    ∧ runEff facs r (n + 3) (absolve (either e)) s = runEff facs r n e s := by
  have h1 : doE facs r (n + 1) (either e) (clearEntered s)
      = some (.res (.tsucc (eitherOut t)) s1) := by
    unfold either
    rw [doE_eitherE, h]
    cases t <;> rfl
  refine ⟨h1, ?_⟩
  have h1' : doE facs r (n + 1) (.eitherE e) (clearEntered s)
      = some (.res (.tsucc (eitherOut t)) s1) := h1
  have h2 : doE facs r (n + 3) (absolve (either e)) (clearEntered s)
      = some (.res t s1) := by
    unfold absolve with_repr either
    rw [doE_withRepr, doE_andThen, h1']
    cases t with
    | tsucc v => rfl
    | terr x => rfl
  unfold runEff
  rw [h2, h]

/-- Witness for C5: the round trip at `error("x")`. -/
theorem either_absolve_roundtrip_witness :
    doE (σ := Unit) facsId .vnone 1 (error (.vstr "x"))
        (clearEntered (initStore ()))
      = some (.res (.terr (.vstr "x")) (initStore ()))
    ∧ doE (σ := Unit) facsId .vnone 2 (either (error (.vstr "x")))
        (clearEntered (initStore ()))
      = some (.res (.tsucc (.vleft (.vstr "x"))) (initStore ()))
    ∧ runEff (σ := Unit) facsId .vnone 4 (absolve (either (error (.vstr "x"))))
        (initStore ())
      = runEff facsId .vnone 1 (error (.vstr "x")) (initStore ()) :=
  ⟨rfl,
   (either_absolve_roundtrip facsId .vnone 1 (error (.vstr "x"))
      (initStore ()) (.terr (.vstr "x")) (initStore ()) rfl).1,
   (either_absolve_roundtrip facsId .vnone 1 (error (.vstr "x"))
      (initStore ()) (.terr (.vstr "x")) (initStore ()) rfl).2⟩

theorem seqGo_logged (step : Eff (List Nat) → Store (List Nat) → Option (DRes (List Nat)))
    (hstep : ∀ (p : Nat × Val) (s : Store (List Nat)),
      step (loggedS p) s = some (.res (.tsucc p.2) { s with w := s.w ++ [p.1] })) :
    ∀ (pre : List (Nat × Val)) (rest : List (Eff (List Nat)))
      (acc : List Val) (s : Store (List Nat)),
      seqGo step (pre.map loggedS ++ rest) acc s
        = seqGo step rest ((pre.map Prod.snd).reverse ++ acc)
            { s with w := s.w ++ pre.map Prod.fst } := by
  intro pre
  induction pre with
  | nil =>
    intro rest acc s
    show seqGo step rest acc s = seqGo step rest acc { s with w := s.w ++ [] }
    rw [List.append_nil]
  | cons hd tl ih =>
    intro rest acc s
    show seqGo step (loggedS hd :: (tl.map loggedS ++ rest)) acc s = _
    simp only [seqGo]
    rw [hstep]
    simp only
    rw [ih]
    congr 1
    · simp
    · congr 1
      simp

/-- C3: `sequence` runs its effects strictly left to right — each effect's
side effect (its tag appended to the world) is observable before the
next effect starts.  If every effect succeeds the composite succeeds
with the tuple of results in the original order; when an effect fails,
the composite run raises that effect's reason and the side effects of
the effects after the failing one never occur (the final world contains
exactly the tags of the prefix up to and including the failing effect,
whatever the remaining effects are). -/
theorem sequence_left_to_right_short_circuit (pre : List (Nat × Val))
    (j : Nat) (x : Val) (post : List (Eff (List Nat))) (w0 : List Nat)
    (r : Val) :
    runEff facsId r 3 (sequence (pre.map loggedS ++ loggedE j x :: post))
        (initStore w0)
      = some (.raised (wrapReason x),
              initStore (w0 ++ pre.map Prod.fst ++ [j]))
    ∧ runEff facsId r 3 (sequence (pre.map loggedS)) (initStore w0)
      = some (.ok (.vtup (pre.map Prod.snd)),
              initStore (w0 ++ pre.map Prod.fst)) := by
  have hclear : clearEntered (initStore w0) = initStore w0 := rfl
  have hstep : ∀ (p : Nat × Val) (s : Store (List Nat)),
      doE facsId r 2 (loggedS p) s
        = some (.res (.tsucc p.2) { s with w := s.w ++ [p.1] }) :=
    fun p s => rfl
  constructor
  · have h1 : doE facsId r 3
        (.seqE (pre.map loggedS ++ loggedE j x :: post)) (initStore w0)
        = seqGo (doE facsId r 2) (pre.map loggedS ++ loggedE j x :: post)
            [] (initStore w0) := rfl
    have h2 := seqGo_logged (doE facsId r 2) hstep pre (loggedE j x :: post)
      [] (initStore w0)
    have h3 : seqGo (doE facsId r 2) (loggedE j x :: post)
        ((pre.map Prod.snd).reverse ++ [])
        { initStore w0 with w := (initStore w0).w ++ pre.map Prod.fst }
        = some (.res (.terr x)
            (initStore (w0 ++ pre.map Prod.fst ++ [j]))) := rfl
    unfold runEff sequence
    rw [hclear, h1, h2, h3]
    rfl
  · have h1 : doE facsId r 3 (.seqE (pre.map loggedS)) (initStore w0)
        = seqGo (doE facsId r 2) (pre.map loggedS ++ []) [] (initStore w0) := by
      rw [List.append_nil]
      rfl
    have h2 := seqGo_logged (doE facsId r 2) hstep pre [] [] (initStore w0)
    have hnil : ∀ (acc : List Val) (s : Store (List Nat)),
        seqGo (doE facsId r 2) [] acc s
          = some (.res (.tsucc (.vtup acc.reverse)) s) := fun acc s => rfl
    unfold runEff sequence
    rw [hclear, h1, h2, hnil]
    simp only [List.append_nil, List.reverse_reverse]
    rfl

theorem seqGo_pure (step : Eff σ → Store σ → Option (DRes σ))
    (hstepS : ∀ (v : Val) (s : Store σ),
      step (.success v) s = some (.res (.tsucc v) s))
    (hstepE : ∀ (x : Val) (s : Store σ),
      step (.err x) s = some (.res (.terr x) s)) :
    ∀ (es : List (Val ⊕ Val)) (acc : List Val) (s : Store σ),
      seqGo step (es.map mkPure) acc s = some (.res (pureOutcome es acc) s) := by
  intro es
  induction es with
  | nil => intro acc s; rfl
  | cons o rest ih =>
    intro acc s
    cases o with
    | inl v =>
      show seqGo step (.success v :: rest.map mkPure) acc s = _
      simp only [seqGo]
      rw [hstepS]
      exact ih _ _
    | inr x =>
      show seqGo step (.err x :: rest.map mkPure) acc s = _
      simp only [seqGo]
      rw [hstepE]
      rfl

theorem gatherGo_pure (step : Eff σ → Store σ → Option (DRes σ))
    (hstepS : ∀ (v : Val) (s : Store σ),
      step (.success v) s = some (.res (.tsucc v) s))
    (hstepE : ∀ (x : Val) (s : Store σ),
      step (.err x) s = some (.res (.terr x) s)) :
    ∀ (es : List (Val ⊕ Val)) (acc : List Outcome) (s : Store σ),
      gatherGo step (es.map mkPure) acc s
        = some (.res (collectOuts (acc.reverse ++ es.map outcomeOf) []) s) := by
  intro es
  induction es with
  | nil =>
    intro acc s
    show gatherGo step [] acc s
      = some (.res (collectOuts (acc.reverse ++ []) []) s)
    rw [List.append_nil]
    rfl
  | cons o rest ih =>
    intro acc s
    cases o with
    | inl v =>
      show gatherGo step (.success v :: rest.map mkPure) acc s = _
      simp only [gatherGo]
      rw [hstepS]
      simp only
      rw [ih]
      simp [outcomeOf, List.reverse_cons, List.append_assoc]
    | inr x =>
      show gatherGo step (.err x :: rest.map mkPure) acc s = _
      simp only [gatherGo]
      rw [hstepE]
      simp only
      rw [ih]
      simp [outcomeOf, List.reverse_cons, List.append_assoc]

theorem collectOuts_pure :
    ∀ (es : List (Val ⊕ Val)) (acc : List Val),
      collectOuts (es.map outcomeOf) acc = pureOutcome es acc := by
  intro es
  induction es with
  | nil => intro acc; rfl
  | cons o rest ih =>
    intro acc
    cases o with
    | inl v => exact ih _
    | inr x => rfl

/-- C4: for effects built only from `success`/`error` (no side effects),
`sequence_async` is outcome-equivalent to `sequence` at every fuel, and
both produce the leftmost failure reason when any effect fails and the
ordered tuple of results when all succeed. -/
theorem sequence_async_equiv_sequence_on_pure (facs : Nat → σ → Val × σ)
    (r : Val) (es : List (Val ⊕ Val)) (fuel : Nat) (s : Store σ) :
    runEff facs r fuel (sequence (es.map mkPure)) s
      = runEff facs r fuel (sequence_async (es.map mkPure)) s
    ∧ runEff facs r 2 (sequence (es.map mkPure)) s
      = some (toRun (pureOutcome es []), teardown (clearEntered s)) := by
  constructor
  · cases fuel with
    | zero => rfl
    | succ n =>
      cases n with
      | zero =>
        cases es with
        | nil => rfl
        | cons o rest => cases o <;> rfl
      | succ n =>
        have hS : ∀ (v : Val) (s1 : Store σ),
            doE facs r (n + 1) (.success v) s1 = some (.res (.tsucc v) s1) :=
          fun v s1 => rfl
        have hE : ∀ (x : Val) (s1 : Store σ),
            doE facs r (n + 1) (.err x) s1 = some (.res (.terr x) s1) :=
          fun x s1 => rfl
        have h1 : doE facs r (n + 2) (.seqE (es.map mkPure)) (clearEntered s)
            = some (.res (pureOutcome es []) (clearEntered s)) :=
          seqGo_pure (doE facs r (n + 1)) hS hE es [] (clearEntered s)
        have h2 : doE facs r (n + 2) (.seqAsyncE (es.map mkPure)) (clearEntered s)
            = some (.res (pureOutcome es []) (clearEntered s)) := by
          have hg := gatherGo_pure (doE facs r (n + 1)) hS hE es []
            (clearEntered s)
          simp only [List.reverse_nil, List.nil_append] at hg
          rw [collectOuts_pure] at hg
          exact hg
        unfold runEff sequence sequence_async
        rw [h1, h2]
  · have hS : ∀ (v : Val) (s1 : Store σ),
        doE facs r 1 (.success v) s1 = some (.res (.tsucc v) s1) :=
      fun v s1 => rfl
    have hE : ∀ (x : Val) (s1 : Store σ),
        doE facs r 1 (.err x) s1 = some (.res (.terr x) s1) :=
      fun x s1 => rfl
    have h1 : doE facs r 2 (.seqE (es.map mkPure)) (clearEntered s)
        = some (.res (pureOutcome es []) (clearEntered s)) :=
      seqGo_pure (doE facs r 1) hS hE es [] (clearEntered s)
    unfold runEff sequence
    rw [h1]

/-- C6 (amended): for every base effect `b` and every finalizer effect
`fin` that itself terminates successfully, `b.ensure(fin)` runs `fin`'s
side effect exactly once after `b` terminates — on both the success and
the failure path (the final store is `fin`'s do applied exactly once to
the store `b` left behind) — discards `fin`'s own result, and
re-propagates `b`'s original outcome unchanged. -/
theorem ensure_runs_finalizer_once (facs : Nat → σ → Val × σ) (r : Val)
    (n m : Nat) (b fin : Eff σ) (s : Store σ) (tb : Outcome) (sb : Store σ)
    (vf : Val) (sf : Store σ)
    (hb : doE facs r n b s = some (.res tb sb))
    (hf : doE facs r m fin sb = some (.res (.tsucc vf) sf)) :
    doE facs r (n + m + 7) (ensure b fin) s = some (.res tb sf) := by
  have hbN : doE facs r (n + m + 4) b s = some (.res tb sb) :=
    doE_mono facs r (by omega) _ _ _ hb
  have hfN : doE facs r (n + m + 2) fin sb = some (.res (.tsucc vf) sf) :=
    doE_mono facs r (by omega) _ _ _ hf
  have step1 : doE facs r (n + m + 7) (ensure b fin) s
      = contErr (doE facs r (n + m + 5))
          (fun x w => (discard_and_then fin (error x), w))
          (doE facs r (n + m + 5)
            (.andThen b (fun v w => (discard_and_then fin (success v), w))) s) := rfl
  have step2 : doE facs r (n + m + 5)
        (.andThen b (fun v w => (discard_and_then fin (success v), w))) s
      = contSucc (doE facs r (n + m + 4))
          (fun v w => (discard_and_then fin (success v), w))
          (doE facs r (n + m + 4) b s) := rfl
  rw [step1, step2, hbN]
  cases tb with
  | tsucc v =>
    show contErr (doE facs r (n + m + 5))
        (fun x w => (discard_and_then fin (error x), w))
        (doE facs r (n + m + 4) (discard_and_then fin (success v)) sb)
      = some (.res (.tsucc v) sf)
    have step3 : doE facs r (n + m + 4) (discard_and_then fin (success v)) sb
        = contSucc (doE facs r (n + m + 2)) (fun _ w => (success v, w))
            (doE facs r (n + m + 2) fin sb) := rfl
    rw [step3, hfN]
    rfl
  | terr x =>
    show doE facs r (n + m + 5) (discard_and_then fin (error x)) sb
      = some (.res (.terr x) sf)
    have hfN2 : doE facs r (n + m + 3) fin sb
        = some (.res (.tsucc vf) sf) :=
      doE_succ_mono facs r _ _ _ _ hfN
    have step4 : doE facs r (n + m + 5) (discard_and_then fin (error x)) sb
        = contSucc (doE facs r (n + m + 3)) (fun _ w => (error x, w))
            (doE facs r (n + m + 3) fin sb) := rfl
    rw [step4, hfN2]
    rfl

/-- Witness for C6 (amended): a succeeding base effect and a finalizer
whose side effect (logging `9`) happens exactly once. -/
theorem ensure_runs_finalizer_once_witness :
    doE facsId .vnone 1 (success (.vint 1)) (initStore ([] : List Nat))
      = some (.res (.tsucc (.vint 1)) (initStore []))
    ∧ doE facsId .vnone 2 (loggedS (9, .vnone)) (initStore ([] : List Nat))
      = some (.res (.tsucc .vnone) (initStore [9]))
    ∧ doE facsId .vnone 10 (ensure (success (.vint 1)) (loggedS (9, .vnone)))
        (initStore ([] : List Nat))
      = some (.res (.tsucc (.vint 1)) (initStore [9])) :=
  ⟨rfl, rfl,
   ensure_runs_finalizer_once facsId .vnone 1 2 (success (.vint 1))
     (loggedS (9, .vnone)) (initStore []) (.tsucc (.vint 1)) (initStore [])
     .vnone (initStore [9]) rfl rfl⟩

/-- Counterexample for C6 as stated: with base `error("a")` and finalizer
`error("b")`, `ensure` raises the finalizer's failure `"b"` instead of
re-propagating the base effect's original failure reason `"a"`. -/
theorem ensure_finalizer_failure_masks_outcome :
    (runEff (σ := Unit) facsId .vnone 9
        (ensure (error (.vstr "a")) (error (.vstr "b"))) (initStore ())).map Prod.fst
      = some (.raised (runtimeError (.vstr "b")))
    ∧ (runEff (σ := Unit) facsId .vnone 9
        (ensure (error (.vstr "a")) (error (.vstr "b"))) (initStore ())).map Prod.fst
      ≠ some (.raised (runtimeError (.vstr "a"))) := by
  have h1 : (runEff (σ := Unit) facsId .vnone 9
      (ensure (error (.vstr "a")) (error (.vstr "b"))) (initStore ())).map Prod.fst
      = some (.raised (runtimeError (.vstr "b"))) := rfl
  refine ⟨h1, ?_⟩
  rw [h1]
  simp [runtimeError]

/-- C8: a `Memoize` node evaluates its inner effect at most once: with an
empty instance-local cache the first evaluation performs the work and
stores the terminal outcome; with a filled cache every evaluation —
within the same run or in any later run sharing the node — replays the
cached outcome and leaves the store completely unchanged (no side
effects); the cache survives the end-of-run teardown, i.e. it is never
reset between runs. -/
theorem memoize_evaluates_at_most_once (facs : Nat → σ → Val × σ) (r : Val)
    (n mid : Nat) (e : Eff σ) (s : Store σ) (t : Outcome) (s1 : Store σ)
    (hmem : s.memo mid = none)
    (h : doE facs r n e s = some (.res t s1)) :
    doE facs r (n + 1) (.memoize mid e) s = some (.res t (setMemo s1 mid t))
    ∧ (∀ (s2 : Store σ) (k : Nat), s2.memo mid = some t →
        doE facs r (k + 1) (.memoize mid e) s2 = some (.res t s2))
    ∧ (setMemo s1 mid t).memo mid = some t
    ∧ (teardown (setMemo s1 mid t)).memo mid = some t
    ∧ (∀ (s2 : Store σ) (k : Nat), s2.memo mid = some t →
        runEff facs r (k + 1) (.memoize mid e) s2
          = some (toRun t, clearEntered s2)) := by
  have hmm : (setMemo s1 mid t).memo mid = some t := by
    simp [setMemo, updFn]
  refine ⟨?_, ?_, hmm, ?_, ?_⟩
  · rw [doE_memoize, hmem]
    simp only
    rw [h]
    rfl
  · intro s2 k h2
    rw [doE_memoize, h2]
  · rw [teardown_memo]
    exact hmm
  · intro s2 k h2
    unfold runEff
    have h2' : (clearEntered s2).memo mid = some t := h2
    rw [doE_memoize, h2']
    rfl

/-- Witness for C8: memoizing a logging effect; the first evaluation logs
and caches, replay from the cached store changes nothing. -/
theorem memoize_evaluates_at_most_once_witness :
    (initStore ([] : List Nat)).memo 3 = none
    ∧ doE facsId .vnone 2 (loggedS (0, .vint 5)) (initStore ([] : List Nat))
      = some (.res (.tsucc (.vint 5)) (initStore [0]))
    ∧ doE facsId .vnone 3 (.memoize 3 (loggedS (0, .vint 5)))
        (initStore ([] : List Nat))
      = some (.res (.tsucc (.vint 5)) (setMemo (initStore [0]) 3 (.tsucc (.vint 5))))
    ∧ doE facsId .vnone 1 (.memoize 3 (loggedS (0, .vint 5)))
        (setMemo (initStore [0]) 3 (.tsucc (.vint 5)))
      = some (.res (.tsucc (.vint 5)) (setMemo (initStore [0]) 3 (.tsucc (.vint 5)))) :=
  ⟨rfl, rfl,
   (memoize_evaluates_at_most_once facsId .vnone 2 3 (loggedS (0, .vint 5))
     (initStore []) (.tsucc (.vint 5)) (initStore [0]) rfl rfl).1,
   (memoize_evaluates_at_most_once facsId .vnone 2 3 (loggedS (0, .vint 5))
     (initStore []) (.tsucc (.vint 5)) (initStore [0]) rfl rfl).2.1
     (setMemo (initStore [0]) 3 (.tsucc (.vint 5))) 0 (by simp [setMemo, updFn])⟩

/-- C9 (amended): `from_io_bound_callable`, `from_cpu_bound_callable`,
`catch_io_bound` and `catch_cpu_bound` raise `ValueError` at
call/decoration time when handed a coroutine function, before any effect
is constructed or run; `io_bound` and `cpu_bound` of `pfun/effect.pyx`
return the function unchanged and never raise (their async-misuse check
exists only in the static type-checker plugin). -/
theorem bound_decorators_reject_coroutines (f : PyFunc) :
    (f.isCoroutineFn = true →
      from_io_bound_callable f = .error valueError
      ∧ from_cpu_bound_callable f = .error valueError
      ∧ catch_io_bound f = .error valueError
      ∧ catch_cpu_bound f = .error valueError)
    ∧ (f.isCoroutineFn = false →
      from_io_bound_callable f = .ok (.fromIOBound f)
      ∧ from_cpu_bound_callable f = .ok (.fromCPUBound f)
      ∧ catch_io_bound f = .ok (.catchIODecorator f)
      ∧ catch_cpu_bound f = .ok (.catchCPUDecorator f))
    ∧ io_bound f = .ok f ∧ cpu_bound f = .ok f := by
  refine ⟨?_, ?_, rfl, rfl⟩
  · intro hf
    unfold from_io_bound_callable from_cpu_bound_callable catch_io_bound catch_cpu_bound
    rw [hf]
    exact ⟨rfl, rfl, rfl, rfl⟩
  · intro hf
    unfold from_io_bound_callable from_cpu_bound_callable catch_io_bound catch_cpu_bound
    rw [hf]
    exact ⟨rfl, rfl, rfl, rfl⟩

/-- Witness for C9 (amended): a coroutine function is rejected by all four
checked constructors and accepted unchanged by `io_bound`/`cpu_bound`. -/
theorem bound_decorators_reject_coroutines_witness :
    PyFunc.isCoroutineFn { isCoroutineFn := true } = true
    ∧ from_io_bound_callable { isCoroutineFn := true } = .error valueError
    ∧ io_bound { isCoroutineFn := true } = .ok { isCoroutineFn := true } :=
  ⟨rfl,
   ((bound_decorators_reject_coroutines { isCoroutineFn := true }).1 rfl).1,
   (bound_decorators_reject_coroutines { isCoroutineFn := true }).2.2.1⟩

/-- Counterexample for C9 as stated: `io_bound` and `cpu_bound`
(`pfun/effect.pyx` lines 826-830) return a coroutine function unchanged —
no usage error is raised at call/decoration time. -/
theorem io_cpu_bound_do_not_raise :
    io_bound { isCoroutineFn := true } = .ok { isCoroutineFn := true }
    ∧ cpu_bound { isCoroutineFn := true } = .ok { isCoroutineFn := true }
    ∧ io_bound { isCoroutineFn := true } ≠ .error valueError
    ∧ cpu_bound { isCoroutineFn := true } ≠ .error valueError := by
  refine ⟨rfl, rfl, ?_, ?_⟩ <;> simp [io_bound, cpu_bound]

/-- C10: running a `Catch` effect converts a raised object into a typed
failure (observable as a successful `Left` through `.either()`) only when
the raised object is an `Exception` instance matching one of the listed
types; an `Exception` not matching the listed types is re-raised, and a
raised non-`Exception` (e.g. `KeyboardInterrupt`) propagates out of the
run uncaught even when its type is among the listed types. -/
theorem catch_converts_only_exception_instances (facs : Nat → σ → Val × σ)
    (r : Val) (n : Nat) (listed : List String) (g : σ → σ) (exc : Val)
    (s : Store σ) :
    (isInstanceOf exc "Exception" = true →
      listed.any (fun c => isInstanceOf exc c) = true →
      (runEff facs r (n + 2)
          (either (catchEffect listed (fun w => (.exn exc, g w)))) s).map Prod.fst
        = some (.ok (.vleft exc)))
    ∧ (isInstanceOf exc "Exception" = false →
      (runEff facs r (n + 2)
          (either (catchEffect listed (fun w => (.exn exc, g w)))) s).map Prod.fst
        = some (.raised exc))
    ∧ (isInstanceOf exc "Exception" = true →
      listed.any (fun c => isInstanceOf exc c) = false →
      (runEff facs r (n + 2)
          (either (catchEffect listed (fun w => (.exn exc, g w)))) s).map Prod.fst
        = some (.raised exc)) := by
  have hstep : ∀ s1 : Store σ,
      doE facs r (n + 2) (either (catchEffect listed (fun w => (.exn exc, g w)))) s1
        = eitherRes (catchStep listed (fun w => (.exn exc, g w)) s1) := by
    intro s1
    rfl
  refine ⟨?_, ?_, ?_⟩
  · intro h1 h2
    unfold runEff
    rw [hstep]
    unfold catchStep
    simp only [h1, h2, if_true]
    rfl
  · intro h1
    unfold runEff
    rw [hstep]
    unfold catchStep
    simp only [h1, Bool.false_eq_true, if_false]
    rfl
  · intro h1 h2
    unfold runEff
    rw [hstep]
    unfold catchStep
    simp only [h1, h2, if_true, Bool.false_eq_true, if_false]
    rfl

/-- Witness for C10: a listed `ValueError` becomes a typed failure, while
a `KeyboardInterrupt` whose type is listed still escapes uncaught. -/
theorem catch_converts_only_exception_instances_witness :
    isInstanceOf valueError "Exception" = true
    ∧ ([("ValueError" : String)].any (fun c => isInstanceOf valueError c)) = true
    ∧ (runEff (σ := Unit) facsId .vnone 2
        (either (catchEffect ["ValueError"] (fun w => (.exn valueError, w))))
        (initStore ())).map Prod.fst = some (.ok (.vleft valueError))
    ∧ isInstanceOf kbInterrupt "Exception" = false
    ∧ (runEff (σ := Unit) facsId .vnone 2
        (either (catchEffect ["KeyboardInterrupt"] (fun w => (.exn kbInterrupt, w))))
        (initStore ())).map Prod.fst = some (.raised kbInterrupt) :=
  ⟨rfl, rfl,
   (catch_converts_only_exception_instances facsId .vnone 0 ["ValueError"]
     (fun w => w) valueError (initStore ())).1 rfl rfl,
   rfl,
   (catch_converts_only_exception_instances facsId .vnone 0 ["KeyboardInterrupt"]
     (fun w => w) kbInterrupt (initStore ())).2.1 rfl⟩

/-- C7: for every `Resource` value (identified by `rid`, with an initially
empty cache and fresh instrumentation) and every single run invocation,
the resource factory is invoked at most once, every handle returned by a
`get()` during the run is the same one handle, and the handle's teardown
runs exactly once when the run's resource scope exits — exactly once
whenever the resource was successfully fetched at least once, however
many times it was fetched. -/
theorem resource_single_acquisition (facs : Nat → σ → Val × σ) (r : Val)
    (fuel : Nat) (e : Eff σ) (s : Store σ) (rid : Nat)
    (out : RunRes × Store σ)
    (h0 : s.resCache rid = none) (h1 : s.facCnt rid = 0)
    (h2 : s.tdCnt rid = 0) (h3 : s.getLog = [])
    (hrun : runEff facs r fuel e s = some out) :
    out.2.facCnt rid ≤ 1
    ∧ out.2.tdCnt rid ≤ 1
    ∧ (∀ ha hb : Val, (rid, ha) ∈ out.2.getLog → (rid, hb) ∈ out.2.getLog →
        ha = hb)
    ∧ (∀ ha : Val, (rid, ha) ∈ out.2.getLog →
        out.2.facCnt rid = 1 ∧ out.2.tdCnt rid = 1) := by
  unfold runEff at hrun
  have key : ∀ s2 : Store σ, ResStep rid (clearEntered s) s2 →
      (teardown s2).facCnt rid ≤ 1
      ∧ (teardown s2).tdCnt rid ≤ 1
      ∧ (∀ ha hb : Val, (rid, ha) ∈ (teardown s2).getLog →
          (rid, hb) ∈ (teardown s2).getLog → ha = hb)
      ∧ (∀ ha : Val, (rid, ha) ∈ (teardown s2).getLog →
          (teardown s2).facCnt rid = 1 ∧ (teardown s2).tdCnt rid = 1) := by
    intro s2 hstep
    obtain ⟨hmono, hfac, hcnt, htd, new, hlog, hnew⟩ := hstep
    have hc0 : (clearEntered s).resCache rid = none := h0
    rw [show (clearEntered s).facCnt rid = 0 from h1] at hfac
    rw [show (clearEntered s).tdCnt rid = 0 from h2] at htd
    rw [show (clearEntered s).entered.count rid = 0 from rfl] at hcnt
    rw [show (clearEntered s).getLog = [] from h3] at hlog
    simp only [List.nil_append] at hlog
    have hdle : resDelta rid (clearEntered s) s2 ≤ 1 := by
      unfold resDelta
      split <;> omega
    have htd2 := teardown_tdCnt rid s2 (by omega)
    have hfacT : (teardown s2).facCnt = s2.facCnt := teardown_facCnt s2
    have hlogT : (teardown s2).getLog = s2.getLog := teardown_getLog s2
    refine ⟨?_, ?_, ?_, ?_⟩
    · rw [hfacT]
      omega
    · rw [htd2, htd]
      split <;> omega
    · intro a b hma hmb
      rw [hlogT, hlog] at hma hmb
      have hca := hnew _ hma rfl
      have hcb := hnew _ hmb rfl
      rw [hca] at hcb
      exact Val.vright.inj (Option.some.inj hcb)
    · intro a hma
      rw [hlogT, hlog] at hma
      have hca := hnew _ hma rfl
      have hd1 : resDelta rid (clearEntered s) s2 = 1 := by
        unfold resDelta
        rw [hc0, hca]
        simp
      refine ⟨by rw [hfacT]; omega, ?_⟩
      rw [htd2, htd]
      have hmem : rid ∈ s2.entered := by
        by_contra hno
        rw [List.count_eq_zero_of_not_mem hno] at hcnt
        omega
      have hsr : isSomeRight (s2.resCache rid) = true := by
        rw [hca]
        rfl
      simp [hmem, hsr]
  cases hd : doE facs r fuel e (clearEntered s) with
  | none => rw [hd] at hrun; cases hrun
  | some d =>
    rw [hd] at hrun
    have hstep := doE_resStep facs r rid fuel e (clearEntered s) d hd
    cases d with
    | res t s2 =>
      cases Option.some.inj hrun
      exact key s2 hstep
    | exc ex s2 =>
      cases Option.some.inj hrun
      exact key s2 hstep

/-- Witness for C7: a counting stub resource fetched twice in one run —
one factory call, both handles equal, one teardown. -/
theorem resource_single_acquisition_witness :
    (initStore 0).resCache 0 = none
    ∧ (initStore 0).facCnt 0 = 0
    ∧ (initStore 0).tdCnt 0 = 0
    ∧ (initStore 0).getLog = []
    ∧ runEff facsW .vnone 10 eW (initStore 0) = some wOut
    ∧ wOut.2.facCnt 0 = 1
    ∧ wOut.2.tdCnt 0 = 1
    ∧ wOut.2.facCnt 0 ≤ 1 ∧ wOut.2.tdCnt 0 ≤ 1 :=
  have hmain := resource_single_acquisition facsW .vnone 10 eW (initStore 0) 0
    wOut rfl rfl rfl rfl rfl
  have hmem : ((0 : Nat), Val.vint 7) ∈ wOut.2.getLog :=
    show ((0 : Nat), Val.vint 7) ∈ [((0 : Nat), Val.vint 7), ((0 : Nat), Val.vint 7)] from
      List.mem_cons_self _ _
  ⟨rfl, rfl, rfl, rfl, rfl,
   (hmain.2.2.2 (Val.vint 7) hmem).1,
   (hmain.2.2.2 (Val.vint 7) hmem).2,
   hmain.1, hmain.2.1⟩

end Pfun
